import Mathlib

/-!
Shallow embedding of the KeywordsNews aggregation engine
(`src/services/newsService.ts` and its sibling iterations) in Lean 4.

Conventions of the embedding:
* JavaScript values that may be `undefined`/`null` are `Option`s.
* JavaScript truthiness on strings (`""` is falsy) is modelled explicitly
  (`jsTruthyS`, `jsOrD`, `jsOrChain` model the `||` fallback chains).
* Effects are turned into explicit inputs: the outcome of each network
  attempt, the contents of the two `localStorage` slots, the current time,
  the UUID supply, and the platform `Date` parser (`dateMs`) are parameters.
* A `catch` block is modelled by matching on an `Except` value that stands
  for the awaited computation: `.error` is the path where the awaited
  promise rejected, `.ok` the path where it fulfilled.
* Progress callbacks (`onProgress`) are modelled by returning the list of
  emitted snapshots, in emission order, next to the function result.
-/

namespace NewsService

/-- The `Article` interface from `src/types.ts`: one normalized content
record. The optional `image` field is modelled as a plain string, empty
when absent, matching how every producer in the service fills it. -/
structure Article where
  id : String
  title : String
  link : String
  pubDate : String
  content : String
  image : String
  source : String
deriving DecidableEq, Repr

/-- JavaScript string truthiness for an optional string: `undefined` and
the empty string are falsy. -/
def jsTruthyS : Option String → Bool
  | some s => s != ""
  | none => false

/-- JavaScript `a || d` for an optional string `a` and string default `d`:
the default is used when `a` is `undefined` or the empty string. -/
def jsOrD : Option String → String → String
  | some s, d => if s = "" then d else s
  | none, d => d

/-- JavaScript `a || b || c || ''`: first truthy string in the chain,
empty string when none is truthy. -/
def jsOrChain : List (Option String) → String
  | [] => ""
  | some s :: rest => if s = "" then jsOrChain rest else s
  | none :: rest => jsOrChain rest

/-- One parsed feed item as read by the primary `newsService.ts`
(`CustomItem` plus the optional-chained field reads the mapper performs):
`mediaContentUrl` models the read of the media-content field URL,
`enclosureUrl` the enclosure URL, `thumbnailUrl` the first thumbnail URL. -/
structure RssItem where
  title : Option String
  link : Option String
  pubDate : Option String
  content : Option String
  contentSnippet : Option String
  description : Option String
  mediaContentUrl : Option String
  enclosureUrl : Option String
  thumbnailUrl : Option String
deriving DecidableEq, Repr

/-- Image resolution of the primary `newsService.ts` mapper (lines 85-92):
media-content URL, else enclosure URL (no MIME check), else first
thumbnail URL, else empty. Each guard is a JS truthiness test. -/
def imageUrlPrimary (item : RssItem) : String :=
  if jsTruthyS item.mediaContentUrl then item.mediaContentUrl.getD ""
  else if jsTruthyS item.enclosureUrl then item.enclosureUrl.getD ""
  else if jsTruthyS item.thumbnailUrl then item.thumbnailUrl.getD ""
  else ""

/-- The item-to-record mapper of the primary `newsService.ts`
(lines 96-105): `uuid` is the fresh `uuidv4()`, `nowIso` the value of
`new Date().toISOString()` at mapping time, `src` the source name. -/
def mapItem (uuid nowIso src : String) (item : RssItem) : Article :=
  { id := uuid
    title := jsOrD item.title "Untitled"
    link := jsOrD item.link ""
    pubDate := jsOrD item.pubDate nowIso
    content := jsOrChain [item.content, item.contentSnippet, item.description]
    image := imageUrlPrimary item
    source := src }

/-- `feed.items.map(...)` with a fresh UUID per item, drawn from the
supply `ids` starting at index `i`. -/
def mapItems (ids : Nat → String) (nowIso src : String) : Nat → List RssItem → List Article
  | _, [] => []
  | i, item :: rest => mapItem (ids i) nowIso src item :: mapItems ids nowIso src (i + 1) rest

/-- Outcome of one CORS-proxy attempt inside `fetchRssFeed`, before the
service's own checks run: the request threw (network error or timeout),
the response carried no data (falsy body), the XML parser threw, or the
parser produced a list of items. -/
inductive FetchAttempt where
  | netError
  | noData
  | parseError
  | parsed (items : List RssItem)
deriving DecidableEq, Repr

/-- One proxy attempt of the primary `fetchRssFeed` (lines 64-110):
any failure throws inside the attempt promise; an empty item list throws
`No items in feed`; otherwise the items are mapped to articles. -/
def proxyAttempt (ids : Nat → String) (nowIso src : String) :
    FetchAttempt → Except String (List Article)
  | .netError => .error "network error"
  | .noData => .error "No data received"
  | .parseError => .error "parse error"
  | .parsed items =>
    if items.isEmpty then .error "No items in feed"
    else .ok (mapItems ids nowIso src 0 items)

/-- The primary `fetchRssFeed` (lines 60-121): all proxy attempts race
under `Promise.any`; the first fulfilled attempt (the list `attempts` is
given in completion order) wins; if every attempt rejects, the `catch`
returns the empty list. The function itself never rejects. -/
def fetchRssFeed (ids : Nat → String) (nowIso src : String)
    (attempts : List FetchAttempt) : Except String (List Article) :=
  match attempts.findSome? (fun a => (proxyAttempt ids nowIso src a).toOption) with
  | some articles => .ok articles
  | none => .ok []

/-- The two `localStorage` slots the service uses. The outer `Option` is
key absence (or a falsy empty string for the timestamp); the inner
`Option` is the parse step: `none` models `parseInt` yielding `NaN`
resp. `JSON.parse` throwing. -/
structure CacheState where
  timestampSlot : Option (Option Int)
  dataSlot : Option (Option (List Article))
deriving Repr

/-- `CACHE_DURATION` of the primary `newsService.ts`: 2 minutes in ms. -/
def CACHE_DURATION : Int := 2 * 60 * 1000

/-- The freshness test `cachedTimestamp && (now - parseInt(cachedTimestamp))
< CACHE_DURATION`; a `NaN` timestamp fails every comparison. -/
def cacheFresh (c : CacheState) (now : Int) : Bool :=
  match c.timestampSlot with
  | some (some t) => now - t < CACHE_DURATION
  | some none => false
  | none => false

/-- Outcome of one source inside `fetchNewsFromAllSources`: the 6-second
race timed out (the attached `catch` turns that into `[]`), or
`fetchRssFeed` resolved with a list of articles (possibly empty, since it
never rejects). -/
inductive SourceOutcome where
  | timeout
  | fetched (articles : List Article)
deriving DecidableEq, Repr

/-- Value each settled source promise contributes to `allArticles`. -/
def outcomeArticles : SourceOutcome → List Article
  | .timeout => []
  | .fetched articles => articles

/-- The in-place date sort shared by all aggregation functions:
`sort((a, b) => new Date(b.pubDate).getTime() - new Date(a.pubDate).getTime())`,
a stable sort descending by parsed date; `dateMs` stands for the platform
date parser. -/
def jsSortByDateDesc (dateMs : String → Int) (articles : List Article) : List Article :=
  articles.mergeSort (fun a b => dateMs b.pubDate ≤ dateMs a.pubDate)

/-- Body of the `try` block of the primary `fetchNewsFromAllSources`
(lines 144-210) together with its `catch`: when the awaited fetch phase
fulfills, the per-source outcomes are flattened and sorted (all-settled
results are all fulfilled because every source promise carries a `catch`);
when the fetch phase rejects, the expired cache is served if its data slot
parses, else the result is empty. -/
def fetchAllLive (c : CacheState) (dateMs : String → Int)
    (fetchPhase : Except Unit (List SourceOutcome)) : List Article :=
  match fetchPhase with
  | .ok outcomes => jsSortByDateDesc dateMs ((outcomes.map outcomeArticles).flatten)
  | .error _ =>
    match c.dataSlot with
    | some (some articles) => articles
    | _ => []

/-- The primary `fetchNewsFromAllSources` (lines 124-211): a fresh and
parseable cache entry is returned directly; otherwise the live fetch
phase runs with the expired-cache fallback reserved for its rejection
path. Writing the cache back does not affect the returned value and is
not modelled. The function always returns a value; no path rethrows. -/
def fetchNewsFromAllSources (c : CacheState) (now : Int) (dateMs : String → Int)
    (fetchPhase : Except Unit (List SourceOutcome)) : List Article :=
  if cacheFresh c now then
    match c.dataSlot with
    | some (some articles) => articles
    | _ => fetchAllLive c dateMs fetchPhase
  else fetchAllLive c dateMs fetchPhase

/-- Live part of `fetchNewsProgressively` (lines 241-304). Inputs:
`priorityResults` are the resolved per-source lists of the priority batch
(each wrapped in `catch(() => [])`, hence never rejecting); `rem` is
`none` when `remainingSources` is empty (at most 3 configured sources),
`some (.error ())` when the awaited remaining phase rejects (the `catch`
then re-emits the accumulated articles with `isComplete = true`), and
`some (.ok results)` on the normal path. Returns the emitted snapshots in
order, paired with the returned list. -/
def progressiveLive (dateMs : String → Int)
    (priorityResults : List (List Article))
    (rem : Option (Except Unit (List (List Article)))) :
    List (List Article × Bool) × List Article :=
  let priorityArticles := jsSortByDateDesc dateMs priorityResults.flatten
  match rem with
  | none => ([(priorityArticles, false)], priorityArticles)
  | some (.error _) =>
    ([(priorityArticles, false), (priorityArticles, true)], priorityArticles)
  | some (.ok remainingResults) =>
    let allArticles := jsSortByDateDesc dateMs (priorityArticles ++ remainingResults.flatten)
    ([(priorityArticles, false), (allArticles, true)], allArticles)

/-- The primary `fetchNewsProgressively` (lines 214-305): a fresh and
parseable cache entry is emitted once with `isComplete = true` and
returned, with no live fetch performed; otherwise the live two-phase
fetch runs. Result: emitted snapshots in order, paired with the returned
list. -/
def fetchNewsProgressively (c : CacheState) (now : Int) (dateMs : String → Int)
    (priorityResults : List (List Article))
    (rem : Option (Except Unit (List (List Article)))) :
    List (List Article × Bool) × List Article :=
  if cacheFresh c now then
    match c.dataSlot with
    | some (some articles) => ([(articles, true)], articles)
    | _ => progressiveLive dateMs priorityResults rem
  else progressiveLive dateMs priorityResults rem

/-- The duplicate test of the deduplication pass in the enhanced
`fetchNewsFromAllSources` iteration (`src/unnamed/part_006`, lines
704-708): `a.title === article.title && a.link === article.link`. -/
def keyEq (a b : Article) : Bool :=
  a.title == b.title && a.link == b.link

/-- `Array.prototype.findIndex` transliterated: first index whose element
satisfies the predicate, `-1` when none does. -/
def jsFindIndexAux (p : α → Bool) : List α → Int → Int
  | [], _ => -1
  | a :: rest, i => if p a then i else jsFindIndexAux p rest (i + 1)

/-- JS `findIndex` over a list, starting at index 0. -/
def jsFindIndex (p : α → Bool) (l : List α) : Int :=
  jsFindIndexAux p l 0

/-- `Array.prototype.filter` with the element index passed to the
callback, as used by the deduplication pass. -/
def jsFilterIdx (p : α → Nat → Bool) : List α → Nat → List α
  | [], _ => []
  | a :: rest, i =>
    if p a i then a :: jsFilterIdx p rest (i + 1) else jsFilterIdx p rest (i + 1)

/-- The deduplication pass of the enhanced `fetchNewsFromAllSources`
(`src/unnamed/part_006`, lines 703-708): keep `articles[i]` exactly when
the first index holding an article with the same `(title, link)` pair is
`i` itself. -/
def removeDuplicates (articles : List Article) : List Article :=
  jsFilterIdx
    (fun article i => jsFindIndex (fun a => keyEq a article) articles == (i : Int))
    articles 0

/-- Recursive first-seen characterization of the deduplication pass:
`seen` holds the already-traversed prefix; an element is kept exactly
when no traversed element shares its key. Proved equal to
`removeDuplicates` below and used to reason about it. -/
def dedupSeen (seen : List Article) : List Article → List Article
  | [] => []
  | a :: rest =>
    if seen.any (fun x => keyEq x a) then dedupSeen (seen ++ [a]) rest
    else a :: dedupSeen (seen ++ [a]) rest

/-- The media-content field of the enhanced parser iteration
(`src/unnamed/part_006`, lines 242-256): either a single object or an
array of objects; each stored value is the optional-chained `$.url`. -/
inductive MediaContent where
  | obj (url : Option String)
  | arr (urls : List (Option String))
deriving DecidableEq, Repr

/-- An enclosure as read by the enhanced iteration: a URL plus the
declared MIME type when present. -/
structure Enclosure where
  url : String
  mime : Option String
deriving DecidableEq, Repr

/-- One feed item as read by the enhanced iteration's image, content and
author extractors (`src/unnamed/part_006`, lines 229-274): only the
fields `extractImageUrl` inspects are modelled; `thumbnailUrl` is the
optional-chained first-thumbnail URL, `itunesImage` the optional-chained
iTunes image href. -/
structure EnhItem where
  mediaContent : Option MediaContent
  itunesImage : Option String
  enclosure : Option Enclosure
  thumbnailUrl : Option String
  content : Option String
  description : Option String
  contentEncoded : Option String
deriving DecidableEq, Repr

/-- First candidate of `extractImageUrl`: `mediaContent[0]?.$?.url` when
the field is an array, `mediaContent?.$?.url` otherwise. -/
def mediaContentUrlE : Option MediaContent → Option String
  | some (.obj url) => url
  | some (.arr urls) => (urls.head?).join
  | none => none

/-- JavaScript `s.startsWith(pre)`, modelled on the character sequences
of the two strings. -/
def jsStartsWith (s pre : String) : Bool :=
  pre.data.isPrefixOf s.data

/-- Third candidate of `extractImageUrl`: the enclosure URL, only when
the declared type starts with `image/`. -/
def enclosureImageUrl : Option Enclosure → Option String
  | some e =>
    match e.mime with
    | some t => if jsStartsWith t "image/" then some e.url else none
    | none => none
  | none => none

/-- The acceptance test `if (url && isValidUrl(url))` applied to each
candidate of `extractImageUrl`: first candidate that is a nonempty string
accepted by the URL validator wins; `""` when none qualifies. `validUrl`
stands for the platform `new URL` constructor succeeding. -/
def tryCandidates (validUrl : String → Bool) : List (Option String) → String
  | [] => ""
  | some u :: rest => if u != "" && validUrl u then u else tryCandidates validUrl rest
  | none :: rest => tryCandidates validUrl rest

/-- `extractImageUrl` of the enhanced iteration (`src/unnamed/part_006`,
lines 360-404): candidates tried in source order — media-content, iTunes
image, enclosure when its MIME type is an image type, first thumbnail,
then an `<img src>` scan of `content || description || content:encoded`.
`imgMatch` stands for the platform regex engine applied to the fixed
`<img ... src=...>` pattern, returning the captured URL when the markup
matches. -/
def extractImageUrl (validUrl : String → Bool) (imgMatch : String → Option String)
    (item : EnhItem) : String :=
  tryCandidates validUrl
    [ mediaContentUrlE item.mediaContent,
      item.itunesImage,
      enclosureImageUrl item.enclosure,
      item.thumbnailUrl,
      imgMatch (jsOrChain [item.content, item.description, item.contentEncoded]) ]

/-- A candidate of the image chain is accepted with value `u`. -/
def acceptsCand (validUrl : String → Bool) (c : Option String) (u : String) : Prop :=
  c = some u ∧ u ≠ "" ∧ validUrl u = true

/-- A candidate of the image chain is rejected: absent, empty, or
refused by the URL validator. -/
def rejectsCand (validUrl : String → Bool) (c : Option String) : Prop :=
  ∀ u, c = some u → (u = "" ∨ validUrl u = false)

/-- One configured source from `newsSources.ts` (the file itself is not
in the snapshot; only its `name`/`url` shape is used). -/
structure NewsSource where
  name : String
  url : String
deriving DecidableEq, Repr

/-- The primary `testSingleSource` (lines 307-313): looks the name up in
the configured source list and throws `Source <name> not found` when the
lookup fails; otherwise it returns the result of the single-source fetch,
here abstracted as the function `fetch`. -/
def testSingleSource (sources : List NewsSource) (fetch : String → String → List Article)
    (sourceName : String) : Except String (List Article) :=
  match sources.find? (fun s => s.name == sourceName) with
  | none => .error ("Source " ++ sourceName ++ " not found")
  | some s => .ok (fetch s.url s.name)

/-- A concrete record used by concrete instances below. -/
def sampleArticle : Article :=
  { id := "id1", title := "Title A", link := "http://a.example/1",
    pubDate := "2024-01-01", content := "body", image := "", source := "Src" }

theorem flatten_eq_nil_of_all_empty (outcomes : List SourceOutcome)
    (h : ∀ o ∈ outcomes, outcomeArticles o = []) :
    (outcomes.map outcomeArticles).flatten = [] := by
  induction outcomes with
  | nil => rfl
  | cons o rest ih =>
    simp only [List.map_cons, List.flatten_cons]
    rw [h o (by simp)]
    simp only [List.nil_append]
    exact ih (fun x hx => h x (by simp [hx]))

theorem jsSortByDateDesc_nil (dateMs : String → Int) :
    jsSortByDateDesc dateMs [] = [] := by
  simp [jsSortByDateDesc]

theorem jsSortByDateDesc_const (articles : List Article) :
    jsSortByDateDesc (fun _ => 0) articles = articles := by
  unfold jsSortByDateDesc
  apply List.mergeSort_of_sorted
  induction articles with
  | nil => exact List.Pairwise.nil
  | cons a rest ih => exact List.Pairwise.cons (fun b hb => by simp) ih

/-- Claim C1: in a run of the top-level aggregation where every
configured source fails (each source outcome contributes no records) and
no cache entry exists, the operation returns the empty list — both when
the fetch phase fulfills and when it rejects; the model is a total
function into `List Article`, so no path throws to the caller. -/
theorem fetchAll_total_failure_no_cache_empty
    (c : CacheState) (now : Int) (dateMs : String → Int) (outcomes : List SourceOutcome)
    (hdata : c.dataSlot = none) (hfail : ∀ o ∈ outcomes, outcomeArticles o = []) :
    fetchNewsFromAllSources c now dateMs (Except.ok outcomes) = [] ∧
    fetchNewsFromAllSources c now dateMs (Except.error ()) = [] := by
  have hflat := flatten_eq_nil_of_all_empty outcomes hfail
  constructor <;>
  · unfold fetchNewsFromAllSources fetchAllLive
    cases hc : cacheFresh c now <;>
      simp [hdata, hflat, jsSortByDateDesc_nil]

theorem fetchAll_total_failure_no_cache_empty_witness :
    fetchNewsFromAllSources ⟨none, none⟩ 0 (fun _ => 0)
      (Except.ok [SourceOutcome.timeout, SourceOutcome.fetched []]) = [] ∧
    fetchNewsFromAllSources ⟨none, none⟩ 0 (fun _ => 0) (Except.error ()) = [] :=
  fetchAll_total_failure_no_cache_empty ⟨none, none⟩ 0 (fun _ => 0)
    [SourceOutcome.timeout, SourceOutcome.fetched []] rfl (by decide)

/-- Claim C2 counterexample: with an expired cache entry holding one
record and every live fetch failing (the fetch phase fulfills with no
records), the aggregation returns the empty list, not the cached
records. -/
theorem fetchAll_expired_cache_not_used_cex :
    fetchNewsFromAllSources ⟨some (some 0), some (some [sampleArticle])⟩ 200000 (fun _ => 0)
      (Except.ok [SourceOutcome.timeout, SourceOutcome.fetched []]) = [] ∧
    ([] : List Article) ≠ [sampleArticle] := by
  constructor
  · unfold fetchNewsFromAllSources fetchAllLive
    have hc : cacheFresh ⟨some (some 0), some (some [sampleArticle])⟩ 200000 = false := by decide
    rw [hc]
    simp [jsSortByDateDesc_nil, outcomeArticles]
  · decide

/-- Claim C2 (amended): the expired-cache fallback fires only when the
live fetch phase rejects (throws): then a parseable cache data slot is
returned regardless of expiry; when all live fetches merely resolve with
no records — the code's normal failure mode — the aggregation returns
the empty list, not the cache. -/
theorem fetchAll_expired_cache_only_on_thrown_error
    (c : CacheState) (now : Int) (dateMs : String → Int)
    (articles : List Article) (outcomes : List SourceOutcome)
    (hdata : c.dataSlot = some (some articles)) (hstale : cacheFresh c now = false) :
    fetchNewsFromAllSources c now dateMs (Except.error ()) = articles ∧
    ((∀ o ∈ outcomes, outcomeArticles o = []) →
      fetchNewsFromAllSources c now dateMs (Except.ok outcomes) = []) := by
  constructor
  · unfold fetchNewsFromAllSources fetchAllLive
    rw [hstale, hdata]
    simp
  · intro hfail
    have hflat := flatten_eq_nil_of_all_empty outcomes hfail
    unfold fetchNewsFromAllSources fetchAllLive
    rw [hstale]
    simp [hflat, jsSortByDateDesc_nil]

theorem fetchAll_expired_cache_only_on_thrown_error_witness :
    fetchNewsFromAllSources ⟨some (some 0), some (some [sampleArticle])⟩ 200000 (fun _ => 0)
      (Except.error ()) = [sampleArticle] ∧
    ((∀ o ∈ [SourceOutcome.timeout], outcomeArticles o = []) →
      fetchNewsFromAllSources ⟨some (some 0), some (some [sampleArticle])⟩ 200000 (fun _ => 0)
        (Except.ok [SourceOutcome.timeout]) = []) :=
  fetchAll_expired_cache_only_on_thrown_error
    ⟨some (some 0), some (some [sampleArticle])⟩ 200000 (fun _ => 0)
    [sampleArticle] [SourceOutcome.timeout] rfl (by decide)

/-- Claim C3: the single-source fetch never raises to its caller: its
result is `ok` for every combination of proxy-attempt outcomes, and when
every attempt fails (network error, missing data, parse failure, empty
feed) it resolves to the empty list. -/
theorem fetchRssFeed_never_raises (ids : Nat → String) (nowIso src : String)
    (attempts : List FetchAttempt) :
    (fetchRssFeed ids nowIso src attempts).isOk = true ∧
    ((∀ a ∈ attempts, (proxyAttempt ids nowIso src a).toOption = none) →
      fetchRssFeed ids nowIso src attempts = Except.ok []) := by
  constructor
  · unfold fetchRssFeed
    cases attempts.findSome? (fun a => (proxyAttempt ids nowIso src a).toOption) <;> rfl
  · intro h
    unfold fetchRssFeed
    rw [List.findSome?_eq_none_iff.mpr h]

theorem fetchRssFeed_never_raises_witness :
    (fetchRssFeed (fun _ => "u") "now" "Src"
      [FetchAttempt.netError, FetchAttempt.noData, FetchAttempt.parseError,
       FetchAttempt.parsed []]).isOk = true ∧
    ((∀ a ∈ [FetchAttempt.netError, FetchAttempt.noData, FetchAttempt.parseError,
        FetchAttempt.parsed []],
        (proxyAttempt (fun _ => "u") "now" "Src" a).toOption = none) →
      fetchRssFeed (fun _ => "u") "now" "Src"
        [FetchAttempt.netError, FetchAttempt.noData, FetchAttempt.parseError,
         FetchAttempt.parsed []] = Except.ok []) :=
  fetchRssFeed_never_raises (fun _ => "u") "now" "Src"
    [FetchAttempt.netError, FetchAttempt.noData, FetchAttempt.parseError,
     FetchAttempt.parsed []]

/-- Claim C4 counterexample: with a fresh cache entry holding one record,
the progressive aggregation emits exactly one snapshot, and that first
snapshot carries `isComplete = true`, not `false` as claimed. -/
theorem progressive_fresh_cache_first_emission_cex :
    (fetchNewsProgressively ⟨some (some 1000), some (some [sampleArticle])⟩ 1000 (fun _ => 0)
      [] none).1 = [([sampleArticle], true)] ∧
    ¬(((fetchNewsProgressively ⟨some (some 1000), some (some [sampleArticle])⟩ 1000 (fun _ => 0)
      [] none).1.headD ([], false)).2 = false) := by
  constructor
  · rfl
  · decide

/-- Claim C4 (amended): for a run started while the cache is fresh and
its data slot parses, the progressive aggregation performs no live fetch
at all and its single `onProgress` emission — hence the very first one —
carries the cached records with `isComplete = true` (not `false`). -/
theorem progressive_fresh_cache_single_complete_emission
    (c : CacheState) (now : Int) (dateMs : String → Int)
    (priorityResults : List (List Article))
    (rem : Option (Except Unit (List (List Article)))) (articles : List Article)
    (hfresh : cacheFresh c now = true) (hdata : c.dataSlot = some (some articles)) :
    fetchNewsProgressively c now dateMs priorityResults rem = ([(articles, true)], articles) := by
  unfold fetchNewsProgressively
  rw [hfresh, hdata]
  simp

theorem progressive_fresh_cache_single_complete_emission_witness :
    fetchNewsProgressively ⟨some (some 1000), some (some [sampleArticle])⟩ 1000 (fun _ => 0)
      [[sampleArticle]] none = ([([sampleArticle], true)], [sampleArticle]) :=
  progressive_fresh_cache_single_complete_emission
    ⟨some (some 1000), some (some [sampleArticle])⟩ 1000 (fun _ => 0)
    [[sampleArticle]] none [sampleArticle] (by decide) rfl

/-- Claim C10: for every source name matching no configured source, the
diagnostic entry point rejects with `Source <name> not found` — it does
not resolve, in particular not to an empty list. -/
theorem testSingleSource_unknown_source_throws
    (sources : List NewsSource) (fetch : String → String → List Article) (sourceName : String)
    (h : ∀ s ∈ sources, s.name ≠ sourceName) :
    testSingleSource sources fetch sourceName
      = Except.error ("Source " ++ sourceName ++ " not found") ∧
    ∀ articles, testSingleSource sources fetch sourceName ≠ Except.ok articles := by
  have hfind : sources.find? (fun s => s.name == sourceName) = none := by
    rw [List.find?_eq_none]
    intro s hs
    simpa using h s hs
  constructor
  · unfold testSingleSource
    rw [hfind]
  · intro articles
    unfold testSingleSource
    rw [hfind]
    intro hcontra
    exact Except.noConfusion hcontra

theorem testSingleSource_unknown_source_throws_witness :
    testSingleSource [⟨"BBC News", "http://feeds.example/bbc"⟩] (fun _ _ => []) "Nope"
      = Except.error ("Source " ++ "Nope" ++ " not found") ∧
    ∀ articles, testSingleSource [⟨"BBC News", "http://feeds.example/bbc"⟩]
      (fun _ _ => []) "Nope" ≠ Except.ok articles :=
  testSingleSource_unknown_source_throws
    [⟨"BBC News", "http://feeds.example/bbc"⟩] (fun _ _ => []) "Nope" (by decide)

/-- A second concrete record, distinct from `sampleArticle`. -/
def otherArticle : Article :=
  { id := "id2", title := "Title B", link := "http://b.example/2",
    pubDate := "2024-01-02", content := "body2", image := "", source := "Src2" }

theorem mem_jsSortByDateDesc_append_left (dateMs : String → Int)
    (p q : List Article) (a : Article) (ha : a ∈ p) :
    a ∈ jsSortByDateDesc dateMs (p ++ q) := by
  unfold jsSortByDateDesc
  rw [List.mem_mergeSort]
  exact List.mem_append_left q ha

theorem progressiveLive_shape (dateMs : String → Int)
    (priorityResults : List (List Article))
    (rem : Option (Except Unit (List (List Article)))) :
    (∃ e : List Article × Bool, (progressiveLive dateMs priorityResults rem).1 = [e]) ∨
    (∃ p q : List Article,
        (progressiveLive dateMs priorityResults rem).1 = [(p, false), (q, true)] ∧
        ∀ a ∈ p, a ∈ q) := by
  match rem with
  | none =>
    exact Or.inl ⟨(jsSortByDateDesc dateMs priorityResults.flatten, false), rfl⟩
  | some (.error e) =>
    exact Or.inr ⟨jsSortByDateDesc dateMs priorityResults.flatten,
      jsSortByDateDesc dateMs priorityResults.flatten, rfl, fun a ha => ha⟩
  | some (.ok rss) =>
    exact Or.inr ⟨jsSortByDateDesc dateMs priorityResults.flatten,
      jsSortByDateDesc dateMs (jsSortByDateDesc dateMs priorityResults.flatten ++ rss.flatten),
      rfl, fun a ha => mem_jsSortByDateDesc_append_left dateMs _ _ a ha⟩

theorem progressive_emissions_shape (c : CacheState) (now : Int) (dateMs : String → Int)
    (priorityResults : List (List Article))
    (rem : Option (Except Unit (List (List Article)))) :
    (∃ e : List Article × Bool,
        (fetchNewsProgressively c now dateMs priorityResults rem).1 = [e]) ∨
    (∃ p q : List Article,
        (fetchNewsProgressively c now dateMs priorityResults rem).1 = [(p, false), (q, true)] ∧
        ∀ a ∈ p, a ∈ q) := by
  unfold fetchNewsProgressively
  split
  · split
    · exact Or.inl ⟨_, rfl⟩
    · exact progressiveLive_shape dateMs priorityResults rem
  · exact progressiveLive_shape dateMs priorityResults rem

/-- Claim C5: the snapshots passed to `onProgress` within one progressive
run are monotone: every record present in an earlier snapshot is present
in every later snapshot of the same run — with no dedup exception needed,
since the progressive path performs no deduplication at all. -/
theorem progressive_snapshots_monotone (c : CacheState) (now : Int) (dateMs : String → Int)
    (priorityResults : List (List Article))
    (rem : Option (Except Unit (List (List Article))))
    (i j : Nat) (hij : i ≤ j)
    (hj : j < (fetchNewsProgressively c now dateMs priorityResults rem).1.length)
    (a : Article)
    (ha : a ∈ ((fetchNewsProgressively c now dateMs priorityResults rem).1.getD i ([], false)).1) :
    a ∈ ((fetchNewsProgressively c now dateMs priorityResults rem).1.getD j ([], false)).1 := by
  rcases progressive_emissions_shape c now dateMs priorityResults rem with
    ⟨e, he⟩ | ⟨p, q, he, hsub⟩
  · rw [he] at hj ha ⊢
    have hj1 : j < 1 := by simpa using hj
    have hj0 : j = 0 := by omega
    have hi0 : i = 0 := by omega
    subst hj0; subst hi0
    exact ha
  · rw [he] at hj ha ⊢
    have hlen : j < 2 := by simpa using hj
    have h0 : [(p, false), (q, true)].getD 0 ([], false) = (p, false) := rfl
    have h1 : [(p, false), (q, true)].getD 1 ([], false) = (q, true) := rfl
    have hj2 : j = 0 ∨ j = 1 := by omega
    rcases hj2 with rfl | rfl
    · have hi0 : i = 0 := by omega
      subst hi0
      exact ha
    · have hi01 : i = 0 ∨ i = 1 := by omega
      rcases hi01 with rfl | rfl
      · rw [h0] at ha
        rw [h1]
        exact hsub a ha
      · exact ha

theorem progressive_snapshots_monotone_witness :
    (0 : Nat) ≤ 1 ∧
    1 < (fetchNewsProgressively ⟨none, none⟩ 0 (fun _ => 0) [[sampleArticle]]
          (some (Except.ok [[otherArticle]]))).1.length ∧
    sampleArticle ∈ ((fetchNewsProgressively ⟨none, none⟩ 0 (fun _ => 0) [[sampleArticle]]
          (some (Except.ok [[otherArticle]]))).1.getD 0 ([], false)).1 ∧
    sampleArticle ∈ ((fetchNewsProgressively ⟨none, none⟩ 0 (fun _ => 0) [[sampleArticle]]
          (some (Except.ok [[otherArticle]]))).1.getD 1 ([], false)).1 := by
  have hj : 1 < (fetchNewsProgressively ⟨none, none⟩ 0 (fun _ => 0) [[sampleArticle]]
      (some (Except.ok [[otherArticle]]))).1.length := by
    simp [fetchNewsProgressively, progressiveLive, cacheFresh]
  have ha : sampleArticle ∈ ((fetchNewsProgressively ⟨none, none⟩ 0 (fun _ => 0)
      [[sampleArticle]] (some (Except.ok [[otherArticle]]))).1.getD 0 ([], false)).1 := by
    simp [fetchNewsProgressively, progressiveLive, cacheFresh, jsSortByDateDesc_const]
  exact ⟨Nat.zero_le 1, hj, ha,
    progressive_snapshots_monotone ⟨none, none⟩ 0 (fun _ => 0) [[sampleArticle]]
      (some (Except.ok [[otherArticle]])) 0 1 (Nat.zero_le 1) hj sampleArticle ha⟩

theorem keyEq_eq_true_iff (a b : Article) :
    keyEq a b = true ↔ (a.title = b.title ∧ a.link = b.link) := by
  simp [keyEq]

theorem keyEq_refl (a : Article) : keyEq a a = true := by
  simp [keyEq]

theorem jsFindIndexAux_first {α : Type} (p : α → Bool) (pre : List α) (a : α) (rest : List α)
    (k : Int) (hpre : ∀ x ∈ pre, p x = false) (hpa : p a = true) :
    jsFindIndexAux p (pre ++ a :: rest) k = k + pre.length := by
  induction pre generalizing k with
  | nil => simp [jsFindIndexAux, hpa]
  | cons x xs ih =>
    have hx : p x = false := hpre x (by simp)
    simp only [List.cons_append, jsFindIndexAux, hx, Bool.false_eq_true, if_false,
      List.append_eq]
    rw [ih (k + 1) (fun y hy => hpre y (by simp [hy]))]
    simp only [List.length_cons]
    push_cast
    omega

theorem jsFindIndexAux_lt {α : Type} (p : α → Bool) (pre s : List α) (k : Int)
    (hpre : ∃ x ∈ pre, p x = true) :
    jsFindIndexAux p (pre ++ s) k < k + pre.length := by
  induction pre generalizing k with
  | nil =>
    obtain ⟨x, hx, _⟩ := hpre
    exact absurd hx (List.not_mem_nil x)
  | cons x xs ih =>
    by_cases hx : p x = true
    · simp only [List.cons_append, jsFindIndexAux, hx, if_true, List.length_cons]
      push_cast
      omega
    · have hx2 : p x = false := by simpa using hx
      simp only [List.cons_append, jsFindIndexAux, hx2, Bool.false_eq_true, if_false,
        List.length_cons, List.append_eq]
      have hxs : ∃ y ∈ xs, p y = true := by
        obtain ⟨y, hy, hpy⟩ := hpre
        rcases List.mem_cons.mp hy with rfl | hmem
        · exact absurd hpy (by simp [hx2])
        · exact ⟨y, hmem, hpy⟩
      have hlt := ih (k + 1) hxs
      push_cast at hlt ⊢
      omega

theorem jsFilterIdx_eq_dedupSeen (s : List Article) :
    ∀ (pre full : List Article), full = pre ++ s →
    jsFilterIdx (fun article i => jsFindIndex (fun x => keyEq x article) full == (i : Int))
        s pre.length = dedupSeen pre s := by
  induction s with
  | nil => intro pre full _; rfl
  | cons a rest ih =>
    intro pre full hfull
    subst hfull
    by_cases hseen : pre.any (fun x => keyEq x a) = true
    · have hlt : jsFindIndexAux (fun x => keyEq x a) (pre ++ a :: rest) 0 < 0 + pre.length :=
        jsFindIndexAux_lt (fun x => keyEq x a) pre (a :: rest) 0
          (by simpa [List.any_eq_true] using hseen)
      have hpred : (jsFindIndex (fun x => keyEq x a) (pre ++ a :: rest)
          == (pre.length : Int)) = false := by
        unfold jsFindIndex
        rw [beq_eq_false_iff_ne]
        omega
      simp only [jsFilterIdx, hpred, Bool.false_eq_true, if_false]
      have hrec := ih (pre ++ [a]) (pre ++ a :: rest) (by simp)
      simp only [List.length_append, List.length_cons, List.length_nil] at hrec
      simp only [dedupSeen, hseen, if_true]
      simpa using hrec
    · have hall : ∀ x ∈ pre, keyEq x a = false := by
        intro x hx
        have := List.any_eq_false.mp (by simpa using hseen) x hx
        simpa using this
      have heq : jsFindIndexAux (fun x => keyEq x a) (pre ++ a :: rest) 0 = 0 + pre.length :=
        jsFindIndexAux_first (fun x => keyEq x a) pre a rest 0 hall (keyEq_refl a)
      have hpred : (jsFindIndex (fun x => keyEq x a) (pre ++ a :: rest)
          == (pre.length : Int)) = true := by
        unfold jsFindIndex
        rw [heq]
        simp
      simp only [jsFilterIdx, hpred, if_true]
      have hrec := ih (pre ++ [a]) (pre ++ a :: rest) (by simp)
      simp only [List.length_append, List.length_cons, List.length_nil] at hrec
      have hseen2 : pre.any (fun x => keyEq x a) = false := by simpa using hseen
      simp only [dedupSeen, hseen2, Bool.false_eq_true, if_false]
      simpa using hrec

theorem removeDuplicates_eq_dedupSeen (articles : List Article) :
    removeDuplicates articles = dedupSeen [] articles :=
  jsFilterIdx_eq_dedupSeen articles [] articles rfl

theorem dedupSeen_append (s : List Article) :
    ∀ (seen t : List Article),
    dedupSeen seen (s ++ t) = dedupSeen seen s ++ dedupSeen (seen ++ s) t := by
  induction s with
  | nil => intro seen t; simp [dedupSeen]
  | cons a rest ih =>
    intro seen t
    by_cases hseen : seen.any (fun x => keyEq x a) = true
    · simp only [List.cons_append, dedupSeen, hseen, if_true]
      simp only [List.append_eq]
      rw [ih (seen ++ [a]) t]
      simp
    · have hseen2 : seen.any (fun x => keyEq x a) = false := by simpa using hseen
      simp only [List.cons_append, dedupSeen, hseen2, Bool.false_eq_true, if_false]
      simp only [List.append_eq]
      rw [ih (seen ++ [a]) t]
      simp

theorem dedupSeen_eq_nil_of_all_dup (t : List Article) :
    ∀ (seen : List Article), (∀ a ∈ t, seen.any (fun x => keyEq x a) = true) →
    dedupSeen seen t = [] := by
  induction t with
  | nil => intro seen _; rfl
  | cons a rest ih =>
    intro seen h
    have ha := h a (by simp)
    simp only [dedupSeen, ha, if_true]
    apply ih (seen ++ [a])
    intro b hb
    rw [List.any_append]
    rw [h b (by simp [hb])]
    rfl

theorem dedupSeen_subset (s : List Article) :
    ∀ (seen : List Article) (b : Article), b ∈ dedupSeen seen s → b ∈ s := by
  induction s with
  | nil => intro seen b hb; exact absurd hb (List.not_mem_nil b)
  | cons a rest ih =>
    intro seen b hb
    by_cases hseen : seen.any (fun x => keyEq x a) = true
    · simp only [dedupSeen, hseen, if_true] at hb
      exact List.mem_cons_of_mem a (ih (seen ++ [a]) b hb)
    · have hseen2 : seen.any (fun x => keyEq x a) = false := by simpa using hseen
      simp only [dedupSeen, hseen2, Bool.false_eq_true, if_false] at hb
      rcases List.mem_cons.mp hb with rfl | hmem
      · exact List.mem_cons_self b rest
      · exact List.mem_cons_of_mem a (ih (seen ++ [a]) b hmem)

theorem dedupSeen_not_in_seen (s : List Article) :
    ∀ (seen : List Article) (b : Article), b ∈ dedupSeen seen s →
    seen.any (fun x => keyEq x b) = false := by
  induction s with
  | nil => intro seen b hb; exact absurd hb (List.not_mem_nil b)
  | cons a rest ih =>
    intro seen b hb
    by_cases hseen : seen.any (fun x => keyEq x a) = true
    · simp only [dedupSeen, hseen, if_true] at hb
      have := ih (seen ++ [a]) b hb
      rw [List.any_append] at this
      exact (Bool.or_eq_false_iff.mp this).1
    · have hseen2 : seen.any (fun x => keyEq x a) = false := by simpa using hseen
      simp only [dedupSeen, hseen2, Bool.false_eq_true, if_false] at hb
      rcases List.mem_cons.mp hb with rfl | hmem
      · exact hseen2
      · have := ih (seen ++ [a]) b hmem
        rw [List.any_append] at this
        exact (Bool.or_eq_false_iff.mp this).1

theorem dedupSeen_pairwise (s : List Article) :
    ∀ (seen : List Article),
    List.Pairwise (fun x y => keyEq x y = false) (dedupSeen seen s) := by
  induction s with
  | nil => intro seen; exact List.Pairwise.nil
  | cons a rest ih =>
    intro seen
    by_cases hseen : seen.any (fun x => keyEq x a) = true
    · simp only [dedupSeen, hseen, if_true]
      exact ih (seen ++ [a])
    · have hseen2 : seen.any (fun x => keyEq x a) = false := by simpa using hseen
      simp only [dedupSeen, hseen2, Bool.false_eq_true, if_false]
      refine List.Pairwise.cons ?_ (ih (seen ++ [a]))
      intro b hb
      have hnot := dedupSeen_not_in_seen rest (seen ++ [a]) b hb
      have := List.any_eq_false.mp hnot a (by simp)
      simpa using this

theorem dedupSeen_first_mem (pre : List Article) :
    ∀ (seen : List Article) (b : Article) (post : List Article),
    (∀ x ∈ seen, keyEq x b = false) → (∀ x ∈ pre, keyEq x b = false) →
    b ∈ dedupSeen seen (pre ++ b :: post) := by
  induction pre with
  | nil =>
    intro seen b post hseen _
    have hany : seen.any (fun x => keyEq x b) = false :=
      List.any_eq_false.mpr (fun x hx => by simp [hseen x hx])
    simp only [List.nil_append, dedupSeen, hany, Bool.false_eq_true, if_false]
    exact List.mem_cons_self b _
  | cons x xs ih =>
    intro seen b post hseen hpre
    have hnew : ∀ y ∈ seen ++ [x], keyEq y b = false := by
      intro y hy
      rcases List.mem_append.mp hy with hy1 | hy2
      · exact hseen y hy1
      · rcases List.mem_cons.mp hy2 with rfl | h2
        · exact hpre y (by simp)
        · exact absurd h2 (List.not_mem_nil y)
    have hxs : ∀ y ∈ xs, keyEq y b = false := fun y hy => hpre y (by simp [hy])
    by_cases hseenx : seen.any (fun z => keyEq z x) = true
    · simp only [List.cons_append, dedupSeen, hseenx, if_true]
      exact ih (seen ++ [x]) b post hnew hxs
    · have hseenx2 : seen.any (fun z => keyEq z x) = false := by simpa using hseenx
      simp only [List.cons_append, dedupSeen, hseenx2, Bool.false_eq_true, if_false]
      exact List.mem_cons_of_mem x (ih (seen ++ [x]) b post hnew hxs)

/-- Record sharing title and source with `dupTitleB` but not its link. -/
def dupTitleA : Article :=
  { id := "d1", title := "Shared headline", link := "http://s.example/one",
    pubDate := "2024-01-01", content := "", image := "", source := "SameSource" }

/-- Record sharing title and source with `dupTitleA` but not its link. -/
def dupTitleB : Article :=
  { id := "d2", title := "Shared headline", link := "http://s.example/two",
    pubDate := "2024-01-01", content := "", image := "", source := "SameSource" }

/-- Claim C6 counterexample: two distinct records sharing title and
source name (hence the claimed dedup key `(normalizedTitle, sourceName)`)
but with different links are both retained by the deduplication pass, so
the output does contain two records sharing the claimed key. -/
theorem dedup_key_title_source_cex :
    removeDuplicates [dupTitleA, dupTitleB] = [dupTitleA, dupTitleB] ∧
    dupTitleA.title = dupTitleB.title ∧
    dupTitleA.source = dupTitleB.source ∧
    dupTitleA ≠ dupTitleB := by
  refine ⟨by decide, rfl, rfl, by decide⟩

/-- Claim C6 (amended): the dedup key the code uses is the exact
`(title, link)` pair (no title normalization, no source component): the
output of the deduplication pass contains no two records sharing that
pair, every output record comes from the input, and for each key the
earliest-encountered record in iteration order is the one retained. -/
theorem dedup_key_title_link_first_seen (articles : List Article) :
    List.Pairwise (fun x y => keyEq x y = false) (removeDuplicates articles) ∧
    (∀ b ∈ removeDuplicates articles, b ∈ articles) ∧
    (∀ pre b post, articles = pre ++ b :: post →
      (∀ x ∈ pre, keyEq x b = false) → b ∈ removeDuplicates articles) := by
  rw [removeDuplicates_eq_dedupSeen]
  refine ⟨dedupSeen_pairwise articles [], fun b hb => dedupSeen_subset articles [] b hb, ?_⟩
  intro pre b post heq hpre
  subst heq
  exact dedupSeen_first_mem pre [] b post (fun x hx => absurd hx (List.not_mem_nil x)) hpre

theorem dedup_key_title_link_first_seen_witness :
    sampleArticle ∈ removeDuplicates [sampleArticle, otherArticle] :=
  (dedup_key_title_link_first_seen [sampleArticle, otherArticle]).2.2
    [] sampleArticle [otherArticle] rfl (fun x hx => absurd hx (List.not_mem_nil x))

/-- Claim C7: the deduplication pass is idempotent with respect to batch
repetition: merging a batch with itself appended a second time yields
exactly the same record list as merging it once (so also the same set
after the subsequent sort). -/
theorem dedup_idempotent (B : List Article) :
    removeDuplicates (B ++ B) = removeDuplicates B := by
  rw [removeDuplicates_eq_dedupSeen, removeDuplicates_eq_dedupSeen, dedupSeen_append]
  have h2 : dedupSeen ([] ++ B) B = [] := by
    apply dedupSeen_eq_nil_of_all_dup
    intro a ha
    simp only [List.nil_append]
    exact List.any_eq_true.mpr ⟨a, ha, keyEq_refl a⟩
  rw [h2]
  simp

theorem tryCandidates_accept (v : String → Bool) (c : Option String) (u : String)
    (rest : List (Option String)) (h : acceptsCand v c u) :
    tryCandidates v (c :: rest) = u := by
  obtain ⟨hc, hne, hv⟩ := h
  subst hc
  simp [tryCandidates, hne, hv]

theorem tryCandidates_reject (v : String → Bool) (c : Option String)
    (rest : List (Option String)) (h : rejectsCand v c) :
    tryCandidates v (c :: rest) = tryCandidates v rest := by
  match c with
  | none => rfl
  | some u =>
    rcases h u rfl with h1 | h2
    · subst h1
      simp [tryCandidates]
    · simp [tryCandidates, h2]

/-- Item carrying an image-typed enclosure and a thumbnail, nothing
else. -/
def enclosureThumbItem : EnhItem :=
  { mediaContent := none, itunesImage := none,
    enclosure := some { url := "http://e.example/pic.jpg", mime := some "image/jpeg" },
    thumbnailUrl := some "http://t.example/thumb.jpg",
    content := none, description := none, contentEncoded := none }

/-- Claim C8 counterexample: on an item carrying both an image-MIME
enclosure and a thumbnail, the extractor returns the enclosure URL, while
the claimed chain (thumbnail before enclosure) would return the thumbnail
URL. -/
theorem extractImageUrl_thumbnail_priority_cex :
    extractImageUrl (fun _ => true) (fun _ => none) enclosureThumbItem
      = "http://e.example/pic.jpg" ∧
    "http://e.example/pic.jpg" ≠ "http://t.example/thumb.jpg" := by
  refine ⟨rfl, by decide⟩

/-- Claim C8 (amended): the extractor's fixed priority chain, first match
wins, is: media-content field, then iTunes image, then enclosure when its
declared MIME type starts with `image/`, then thumbnail field, then the
best-effort markup scan of `content || description || content:encoded`;
a candidate matches when it is a nonempty string the URL validator
accepts, and when no candidate matches the result is the empty string. -/
theorem extractImageUrl_priority_chain (v : String → Bool) (m : String → Option String)
    (item : EnhItem) :
    (∀ u, acceptsCand v (mediaContentUrlE item.mediaContent) u →
      extractImageUrl v m item = u) ∧
    (rejectsCand v (mediaContentUrlE item.mediaContent) →
      ∀ u, acceptsCand v item.itunesImage u → extractImageUrl v m item = u) ∧
    (rejectsCand v (mediaContentUrlE item.mediaContent) →
      rejectsCand v item.itunesImage →
      ∀ u, acceptsCand v (enclosureImageUrl item.enclosure) u →
      extractImageUrl v m item = u) ∧
    (rejectsCand v (mediaContentUrlE item.mediaContent) →
      rejectsCand v item.itunesImage →
      rejectsCand v (enclosureImageUrl item.enclosure) →
      ∀ u, acceptsCand v item.thumbnailUrl u → extractImageUrl v m item = u) ∧
    (rejectsCand v (mediaContentUrlE item.mediaContent) →
      rejectsCand v item.itunesImage →
      rejectsCand v (enclosureImageUrl item.enclosure) →
      rejectsCand v item.thumbnailUrl →
      ∀ u, acceptsCand v (m (jsOrChain [item.content, item.description, item.contentEncoded])) u →
      extractImageUrl v m item = u) ∧
    (rejectsCand v (mediaContentUrlE item.mediaContent) →
      rejectsCand v item.itunesImage →
      rejectsCand v (enclosureImageUrl item.enclosure) →
      rejectsCand v item.thumbnailUrl →
      rejectsCand v (m (jsOrChain [item.content, item.description, item.contentEncoded])) →
      extractImageUrl v m item = "") := by
  refine ⟨?_, ?_, ?_, ?_, ?_, ?_⟩
  · intro u hu
    unfold extractImageUrl
    exact tryCandidates_accept v _ u _ hu
  · intro h1 u hu
    unfold extractImageUrl
    rw [tryCandidates_reject v _ _ h1]
    exact tryCandidates_accept v _ u _ hu
  · intro h1 h2 u hu
    unfold extractImageUrl
    rw [tryCandidates_reject v _ _ h1, tryCandidates_reject v _ _ h2]
    exact tryCandidates_accept v _ u _ hu
  · intro h1 h2 h3 u hu
    unfold extractImageUrl
    rw [tryCandidates_reject v _ _ h1, tryCandidates_reject v _ _ h2,
      tryCandidates_reject v _ _ h3]
    exact tryCandidates_accept v _ u _ hu
  · intro h1 h2 h3 h4 u hu
    unfold extractImageUrl
    rw [tryCandidates_reject v _ _ h1, tryCandidates_reject v _ _ h2,
      tryCandidates_reject v _ _ h3, tryCandidates_reject v _ _ h4]
    exact tryCandidates_accept v _ u _ hu
  · intro h1 h2 h3 h4 h5
    unfold extractImageUrl
    rw [tryCandidates_reject v _ _ h1, tryCandidates_reject v _ _ h2,
      tryCandidates_reject v _ _ h3, tryCandidates_reject v _ _ h4,
      tryCandidates_reject v _ _ h5]
    rfl

/-- Item carrying only a thumbnail URL. -/
def thumbOnlyItem : EnhItem :=
  { mediaContent := none, itunesImage := none, enclosure := none,
    thumbnailUrl := some "http://t.example/thumb.jpg",
    content := none, description := none, contentEncoded := none }

theorem extractImageUrl_priority_chain_witness :
    extractImageUrl (fun _ => true) (fun _ => none) thumbOnlyItem
      = "http://t.example/thumb.jpg" :=
  (extractImageUrl_priority_chain (fun _ => true) (fun _ => none) thumbOnlyItem).2.2.2.1
    (fun u h => nomatch h) (fun u h => nomatch h) (fun u h => nomatch h)
    "http://t.example/thumb.jpg" ⟨rfl, by decide, rfl⟩

/-- Feed item with a title, no link, and an unparseable date string. -/
def noLinkItem : RssItem :=
  { title := some "Has Title", link := none, pubDate := some "not-a-date",
    content := none, contentSnippet := none, description := none,
    mediaContentUrl := none, enclosureUrl := none, thumbnailUrl := none }

/-- Claim C9 counterexample: an item with a missing link yields a record
that stays in the single-source fetch output with an empty link (nothing
drops it), and an unparseable date string is kept verbatim rather than
replaced by the current time. -/
theorem mapItem_missing_link_kept_cex :
    fetchRssFeed (fun _ => "u0") "2024-05-05T00:00:00Z" "Src"
      [FetchAttempt.parsed [noLinkItem]]
      = Except.ok [mapItem "u0" "2024-05-05T00:00:00Z" "Src" noLinkItem] ∧
    (mapItem "u0" "2024-05-05T00:00:00Z" "Src" noLinkItem).link = "" ∧
    (mapItem "u0" "2024-05-05T00:00:00Z" "Src" noLinkItem).pubDate = "not-a-date" ∧
    "not-a-date" ≠ "2024-05-05T00:00:00Z" := by
  refine ⟨rfl, rfl, rfl, by decide⟩

/-- Claim C9 (amended): the field-level fallbacks of the primary parser:
a missing or empty title becomes `Untitled`; a missing or empty date
string becomes the fetch-time timestamp, but an unparseable nonempty date
string is kept verbatim; a missing or empty link becomes the empty string
and the record is nevertheless kept — the mapper drops nothing, producing
exactly one record per feed item, so records with empty links do appear
in the output. -/
theorem mapItem_field_fallbacks (uuid nowIso src : String) (item : RssItem)
    (ids : Nat → String) (k : Nat) (items : List RssItem) :
    ((item.title = none ∨ item.title = some "") →
      (mapItem uuid nowIso src item).title = "Untitled") ∧
    ((item.pubDate = none ∨ item.pubDate = some "") →
      (mapItem uuid nowIso src item).pubDate = nowIso) ∧
    (∀ s, item.pubDate = some s → s ≠ "" →
      (mapItem uuid nowIso src item).pubDate = s) ∧
    ((item.link = none ∨ item.link = some "") →
      (mapItem uuid nowIso src item).link = "") ∧
    (mapItems ids nowIso src k items).length = items.length := by
  refine ⟨?_, ?_, ?_, ?_, ?_⟩
  · rintro (h | h) <;> simp [mapItem, h, jsOrD]
  · rintro (h | h) <;> simp [mapItem, h, jsOrD]
  · intro s hs hne
    simp [mapItem, hs, jsOrD, hne]
  · rintro (h | h) <;> simp [mapItem, h, jsOrD]
  · induction items generalizing k with
    | nil => rfl
    | cons it rest ih => simp [mapItems, ih]

/-- Feed item with every field absent. -/
def emptyItem : RssItem :=
  { title := none, link := none, pubDate := none,
    content := none, contentSnippet := none, description := none,
    mediaContentUrl := none, enclosureUrl := none, thumbnailUrl := none }

theorem mapItem_field_fallbacks_witness :
    (mapItem "u" "NOW" "Src" emptyItem).title = "Untitled" ∧
    (mapItem "u" "NOW" "Src" emptyItem).pubDate = "NOW" ∧
    (mapItem "u" "NOW" "Src" emptyItem).link = "" ∧
    (mapItems (fun _ => "u") "NOW" "Src" 0 [emptyItem, noLinkItem]).length = 2 := by
  have h := mapItem_field_fallbacks "u" "NOW" "Src" emptyItem (fun _ => "u") 0
    [emptyItem, noLinkItem]
  exact ⟨h.1 (Or.inl rfl), h.2.1 (Or.inl rfl), h.2.2.2.1 (Or.inl rfl), h.2.2.2.2⟩

end NewsService
